import Mathlib

/-!
Verification of the argmap command-line tokenizer (src/src/lib.rs).

A Rust `String` is modelled as its list of characters, together with
byte-faithful slicing primitives: Rust indexes `str` by UTF-8 byte
positions and panics when an index is out of bounds or not a character
boundary, so every slicing primitive here returns an `Option`, with
`none` modelling the panic.  The scanning state machine of
`ArgMap::parse` is embedded as a per-token step function `stepToken`
threaded over the input by `runTokens`.
-/

namespace Argmap

/-- A Rust `String` / `str`, modelled as its list of characters. -/
abbrev Str := List Char

/-- Shorthand for turning a Lean string literal into a `Str`. -/
def str (s : String) : Str := s.data

/-- UTF-8 byte width of one character (Rust `char::len_utf8`). -/
def utf8Width (c : Char) : Nat :=
  if c.toNat < 0x80 then 1
  else if c.toNat < 0x800 then 2
  else if c.toNat < 0x10000 then 3
  else 4

/-- Byte length of a string (Rust `str::len`). -/
def byteLen : Str → Nat
  | [] => 0
  | c :: cs => utf8Width c + byteLen cs

/-- Rust `&s[n..]`: drop the first `n` bytes; `none` where Rust panics
(`n` out of bounds or not on a character boundary). -/
def dropB : Str → Nat → Option Str
  | s, 0 => some s
  | [], _+1 => none
  | c :: cs, n+1 =>
    if utf8Width c ≤ n+1 then dropB cs (n+1 - utf8Width c) else none

/-- Rust `&s[..n]`: take the first `n` bytes; `none` where Rust panics. -/
def takeB : Str → Nat → Option Str
  | _, 0 => some []
  | [], _+1 => none
  | c :: cs, n+1 =>
    if utf8Width c ≤ n+1 then (takeB cs (n+1 - utf8Width c)).map (c :: ·)
    else none

/-- Rust `&s[a..b]`: `none` where Rust panics (`a > b`, out of bounds, or
an index not on a character boundary). -/
def sliceB (s : Str) (a b : Nat) : Option Str :=
  if a ≤ b then (dropB s a).bind (fun t => takeB t (b - a)) else none

/-- Byte index of the first `'='` (Rust `str::find("=")`). -/
def findEq : Str → Option Nat
  | [] => none
  | c :: cs => if c = '=' then some 0 else (findEq cs).map (utf8Width c + ·)

/-- Rust `is_num` (src/src/lib.rs): whether the first character is an
ASCII digit; `false` on the empty string. -/
def is_num (s : Str) : Bool :=
  match s with
  | [] => false
  | c :: _ => decide ('0' ≤ c ∧ c ≤ '9')

/-- Rust `short_break` (src/src/lib.rs): whether the first character is
non-alphabetic; `false` on the empty string.  Rust uses the Unicode
`char::is_alphabetic`; every call site passes a single one-byte (hence
ASCII) character, on which it coincides with `Char.isAlpha`. -/
def short_break (s : Str) : Bool :=
  match s with
  | [] => false
  | c :: _ => !c.isAlpha

/-- Whether the token starts with `"-"` (Rust `s.starts_with("-")`). -/
def startsWithDash (s : Str) : Bool :=
  match s with
  | '-' :: _ => true
  | _ => false

/-- Whether the token starts with `"--"` (Rust `s.starts_with("--")`). -/
def startsWithDashDash (s : Str) : Bool :=
  match s with
  | '-' :: '-' :: _ => true
  | _ => false

/-- Rust `HashMap<String,Vec<String>>` (the `Map` alias of the crate),
modelled as an association list with unique keys kept in insertion
order. -/
abbrev Map := List (Str × List Str)

/-- Rust `HashMap::get`. -/
def mapGet : Map → Str → Option (List Str)
  | [], _ => none
  | (k, v) :: m, q => if k = q then some v else mapGet m q

/-- Rust `HashMap::contains_key`. -/
def mapContains (m : Map) (k : Str) : Bool :=
  (mapGet m k).isSome

/-- Rust `HashMap::insert`: replace the value of a present key in place,
otherwise add the binding. -/
def mapInsert : Map → Str → List Str → Map
  | [], k, v => [(k, v)]
  | (k0, v0) :: m, k, v =>
    if k0 = k then (k0, v) :: m else (k0, v0) :: mapInsert m k v

/-- Rust `set` (src/src/lib.rs): append `value` to the key's vector,
inserting the key with a singleton vector when it is new. -/
def set (argv : Map) (key : Str) (value : Str) : Map :=
  match mapGet argv key with
  | some values => mapInsert argv key (values ++ [value])
  | none => mapInsert argv key [value]

/-- Rust `set_bool` (src/src/lib.rs): ensure the key exists, inserting
it with an empty vector when it is new. -/
def set_bool (argv : Map) (key : Str) : Map :=
  if mapContains argv key then argv else mapInsert argv key []

/-- Rust `struct ArgMap { boolean: HashSet<String> }`, the boolean-name
set modelled as a duplicate-free list. -/
structure ArgMap where
  boolean : List Str
deriving Repr, DecidableEq

/-- Rust `ArgMap::new`. -/
def ArgMap.new : ArgMap := ⟨[]⟩

/-- Rust `ArgMap::boolean` (named `addBoolean` here because `boolean` is
the field's name): insert one name into the boolean set
(`HashSet::insert` is a no-op on a present element). -/
def ArgMap.addBoolean (m : ArgMap) (k : Str) : ArgMap :=
  if k ∈ m.boolean then m else ⟨m.boolean ++ [k]⟩

/-- Modelled from the spec: the bulk registration `configure_booleans`
(the crate's `booleans` method, called by the repository's tests but
absent from this snapshot's src/src/lib.rs) registers many names at
once, one after the other in list order. -/
def ArgMap.addBooleans (m : ArgMap) (ks : List Str) : ArgMap :=
  ks.foldl ArgMap.addBoolean m

/-- The local state of one `ArgMap::parse` call: the positional vector
`args`, the option map `argv`, the pending-key register `key`, and the
`dashdash` flag. -/
structure St where
  args : List Str
  argv : Map
  key : Option Str
  dashdash : Bool
deriving Repr, DecidableEq

/-- The state at the start of a parse call. -/
def St.init : St := ⟨[], [], none, false⟩

/-- The inner cluster loop of `ArgMap::parse`
(`for i in 1..s.len()-1 { .. }`), at byte index `i` with `n` iterations
left, returning the updated map, pending key, and the `jump` flag;
`none` models a Rust panic from byte slicing. -/
def clusterLoop (m : ArgMap) (s : Str) :
    Nat → Nat → Map → Option Str → Option (Map × Option Str × Bool)
  | _, 0, argv, key => some (argv, key, false)
  | i, n+1, argv, key =>
    match sliceB s i (i+1) with
    | none => none
    | some k =>
      match key with
      | some sk =>
        if is_num k || short_break k then
          match dropB s i with
          | none => none
          | some v => some (set argv sk v, none, true)
        else
          let argv1 := set_bool argv sk
          if k ∈ m.boolean then clusterLoop m s (i+1) n (set_bool argv1 k) none
          else clusterLoop m s (i+1) n argv1 (some k)
      | none =>
        if k ∈ m.boolean then clusterLoop m s (i+1) n (set_bool argv k) none
        else clusterLoop m s (i+1) n argv (some k)

/-- One iteration of the `for x in input` loop of `ArgMap::parse`,
processing the token `s` in state `st`; `none` models a Rust panic. -/
def stepToken (m : ArgMap) (st : St) (s : Str) : Option St :=
  if st.dashdash then
    some { st with args := st.args ++ [s] }
  else if s = ['-', '-'] then
    some { st with dashdash := true }
  else if s = ['-'] then
    some { st with args := st.args ++ [s] }
  else if startsWithDashDash s then
    let argv0 := match st.key with
      | some k => mapInsert st.argv k []
      | none => st.argv
    match dropB s 2 with
    | none => none
    | some k =>
      match findEq k with
      | some i =>
        match sliceB k 0 i, dropB k (i+1) with
        | some kl, some kv => some { st with argv := set argv0 kl kv, key := none }
        | _, _ => none
      | none =>
        if k ∈ m.boolean then some { st with argv := set_bool argv0 k, key := none }
        else some { st with argv := argv0, key := some k }
  else if startsWithDash s then
    let pre : Option (Map × Option Str × Bool) :=
      match st.key with
      | some k =>
        match sliceB s 1 2 with
        | none => none
        | some c =>
          if is_num c then some (set st.argv k s, none, true)
          else some (mapInsert (set_bool st.argv k) k [], none, false)
      | none => some (st.argv, st.key, false)
    match pre with
    | none => none
    | some (argv0, key0, early) =>
      if early then some { st with argv := argv0, key := none }
      else
        match findEq s with
        | some i =>
          match sliceB s 1 i, dropB s (i+1) with
          | some sk, some sv => some { st with argv := set argv0 sk sv, key := key0 }
          | _, _ => none
        | none =>
          match clusterLoop m s 1 (byteLen s - 2) argv0 key0 with
          | none => none
          | some (argv1, key1, true) => some { st with argv := argv1, key := key1 }
          | some (argv1, key1, false) =>
            match dropB s (byteLen s - 1) with
            | none => none
            | some k =>
              match key1 with
              | some sk =>
                if k ∈ m.boolean then
                  some { st with argv := set_bool (set_bool argv1 sk) k, key := key1 }
                else if is_num k || short_break k then
                  some { st with argv := set argv1 sk k, key := none }
                else
                  some { st with argv := set_bool argv1 sk, key := some k }
              | none =>
                if k ∈ m.boolean then
                  some { st with argv := set_bool argv1 k, key := key1 }
                else
                  some { st with argv := argv1, key := some k }
  else
    match st.key with
    | some k => some { st with argv := set st.argv k s, key := none }
    | none => some { st with args := st.args ++ [s] }

/-- The token loop of `ArgMap::parse` run over a list of tokens. -/
def runTokens (m : ArgMap) (st : St) : List Str → Option St
  | [] => some st
  | s :: rest => (stepToken m st s).bind (fun st1 => runTokens m st1 rest)

/-- The epilogue of `ArgMap::parse`: flush a still-pending key as
boolean presence and return the `(args, argv)` pair. -/
def finishParse (st : St) : List Str × Map :=
  match st.key with
  | some k => (st.args, set_bool st.argv k)
  | none => (st.args, st.argv)

/-- Rust `ArgMap::parse`; `none` models a Rust panic. -/
def ArgMap.parse (m : ArgMap) (input : List Str) : Option (List Str × Map) :=
  (runTokens m St.init input).map finishParse

/-- Rust free function `new`. -/
def new : ArgMap := ArgMap.new

/-- Rust free function `parse`: `ArgMap::new().parse(input)`. -/
def parse (input : List Str) : Option (List Str × Map) :=
  ArgMap.new.parse input


/-- C6: parsing the single token `-abcdef123456` with no boolean names
declared yields no positional arguments and the option map
`{a:[], b:[], c:[], d:[], e:[], f:["123456"]}`: each letter before the
first digit becomes its own key with an empty value sequence, and the
digit-lead break attaches the rest of the token as the value of `f`. -/
theorem c6_cluster_number :
    parse [str "-abcdef123456"] =
      some ([], [(str "a", []), (str "b", []), (str "c", []), (str "d", []),
        (str "e", []), (str "f", [str "123456"])]) := by decide

/-- C8: the free function `parse` returns exactly what the `parse`
method returns on a freshly created instance with an empty boolean-name
set, on every input. -/
theorem c8_free_function (input : List Str) :
    parse input = ArgMap.parse ⟨[]⟩ input := rfl

/-- C5: bulk registration of boolean names equals registering each name
singly in order (and hence parses identically on every input), and
registering the same name twice has no additional effect. -/
theorem c5_bulk_registration (m : ArgMap) (ks : List Str) (k : Str) (input : List Str) :
    m.addBooleans ks = ks.foldl ArgMap.addBoolean m ∧
    (m.addBooleans ks).parse input = (ks.foldl ArgMap.addBoolean m).parse input ∧
    (m.addBoolean k).addBoolean k = m.addBoolean k := by
  refine ⟨rfl, rfl, ?_⟩
  by_cases hk : k ∈ m.boolean
  · simp [ArgMap.addBoolean, hk]
  · simp [ArgMap.addBoolean, hk]

/-- C3 counterexample: with `q` boolean and `z` undeclared, parsing
`["-q","x","-z","y"]` does not put `y` in the positional list: the
positional component is not `["x","y"]` as the claim states. -/
theorem c3_counterexample :
    ((ArgMap.new.addBoolean (str "q")).parse [str "-q", str "x", str "-z", str "y"]).map
        (fun r => r.1) ≠ some [str "x", str "y"] := by decide

/-- C3 amended: with `q` boolean and `z` undeclared, parsing
`["-q","x","-z","y"]` yields positional `["x"]` and option map
`{q: [], z: ["y"]}` — `y` is consumed as the pending key `z`'s value. -/
theorem c3_amended :
    (ArgMap.new.addBoolean (str "q")).parse [str "-q", str "x", str "-z", str "y"] =
      some ([str "x"], [(str "q", []), (str "z", [str "y"])]) := by decide

/-- C1: the code at the failing input `["-a","1","-a","-b"]` (no boolean
names): after the first two tokens the map holds `a: ["1"]`, yet the
full parse ends with `a: []` — flushing the re-pending key `a` runs
`argv.insert(k, vec![])`, which discards the accumulated value. -/
theorem c1_flush_discards_values :
    ArgMap.new.parse [str "-a", str "1"] = some ([], [(str "a", [str "1"])]) ∧
    ArgMap.new.parse [str "-a", str "1", str "-a", str "-b"] =
      some ([], [(str "a", []), (str "b", [])]) := by decide

/-- C2: the code at the failing input `["-é"]`: the cluster scan slices
the token at byte range 1..2, which is not a character boundary of the
two-byte `é`, so the Rust code panics (modelled by `none`) instead of
returning a result. -/
theorem c2_multibyte_panics :
    ArgMap.new.parse [['-', 'é']] = none := by decide


lemma stepToken_of_dashdash (m : ArgMap) (st : St) (h : st.dashdash = true) (s : Str) :
    stepToken m st s = some { st with args := st.args ++ [s] } := by
  simp [stepToken, h]

lemma runTokens_of_dashdash (m : ArgMap) (st : St) (h : st.dashdash = true)
    (rest : List Str) :
    runTokens m st rest = some { st with args := st.args ++ rest } := by
  induction rest generalizing st with
  | nil => simp [runTokens]
  | cons s rest ih =>
    rw [runTokens, stepToken_of_dashdash m st h s, Option.some_bind,
      ih { st with args := st.args ++ [s] } h]
    simp

lemma runTokens_append (m : ArgMap) (st : St) (a b : List Str) :
    runTokens m st (a ++ b) = (runTokens m st a).bind (fun st1 => runTokens m st1 b) := by
  induction a generalizing st with
  | nil => simp [runTokens]
  | cons s a ih =>
    rw [List.cons_append, runTokens, runTokens]
    cases stepToken m st s with
    | none => simp
    | some st1 => simp [ih]

/-- C4: once the token `--` is processed while the dash-dash flag is
unset, the flag is set and stays set, and every subsequent token of the
parse call is appended unchanged to the positional list regardless of
its shape; consequently the whole parse returns the positional list
extended by exactly the remaining tokens. -/
theorem c4_terminator_absorbs (m : ArgMap) (pre rest : List Str) (st : St)
    (hpre : runTokens m St.init pre = some st) (h : st.dashdash = false) :
    stepToken m st ['-', '-'] = some { st with dashdash := true } ∧
    runTokens m { st with dashdash := true } rest =
      some { st with dashdash := true, args := st.args ++ rest } ∧
    m.parse (pre ++ ['-', '-'] :: rest) =
      some (finishParse { st with dashdash := true, args := st.args ++ rest }) ∧
    (finishParse { st with dashdash := true, args := st.args ++ rest }).1 =
      st.args ++ rest := by
  have hstep : stepToken m st ['-', '-'] = some { st with dashdash := true } := by
    simp [stepToken, h]
  have hrun : runTokens m { st with dashdash := true } rest =
      some { st with dashdash := true, args := st.args ++ rest } :=
    runTokens_of_dashdash m _ rfl rest
  refine ⟨hstep, hrun, ?_, ?_⟩
  · rw [ArgMap.parse, runTokens_append, hpre, Option.some_bind, runTokens, hstep,
      Option.some_bind, hrun]
    rfl
  · cases hk : st.key <;> simp [finishParse, hk]

/-- Witness for C4 at a concrete input: after the prefix `["x"]` the
flag is unset, and the terminator absorbs the remaining tokens
`["--","-y","--o=v"]` into the positional list. -/
theorem c4_witness :
    runTokens ArgMap.new St.init [str "x"] = some ⟨[str "x"], [], none, false⟩ ∧
    (⟨[str "x"], [], none, false⟩ : St).dashdash = false ∧
    ArgMap.new.parse ([str "x"] ++ ['-', '-'] :: [str "--", str "-y", str "--o=v"]) =
      some (finishParse
        (St.mk ([str "x"] ++ [str "--", str "-y", str "--o=v"]) [] none true)) :=
  ⟨by decide, rfl,
    (c4_terminator_absorbs ArgMap.new [str "x"] [str "--", str "-y", str "--o=v"]
      ⟨[str "x"], [], none, false⟩ (by decide) rfl).2.2.1⟩

/-- C9: a lone `-` token processed while the dash-dash flag is unset is
always appended to the positional list, leaving the option map, the
pending key and the flag untouched — in any position, even when a
pending short-option key is open. -/
theorem c9_lone_dash (m : ArgMap) (st : St) (h : st.dashdash = false) :
    stepToken m st ['-'] = some { st with args := st.args ++ [['-']] } := by
  simp [stepToken, h]

/-- Witness for C9 at a concrete state with an open pending key `n`. -/
theorem c9_witness :
    (⟨[], [], some (str "n"), false⟩ : St).dashdash = false ∧
    stepToken ArgMap.new ⟨[], [], some (str "n"), false⟩ ['-'] =
      some { (⟨[], [], some (str "n"), false⟩ : St) with args := [] ++ [['-']] } :=
  ⟨rfl, c9_lone_dash ArgMap.new ⟨[], [], some (str "n"), false⟩ rfl⟩

/-- C10: an empty-string token processed while the dash-dash flag is
unset is never an option announcement or terminator: with a pending key
open it is appended as that key's value and the pending slot is
cleared, otherwise it is appended to the positional list — never
dropped. -/
theorem c10_empty_token (m : ArgMap) (st : St) (h : st.dashdash = false) :
    (∀ k, st.key = some k →
      stepToken m st [] = some { st with argv := set st.argv k [], key := none }) ∧
    (st.key = none → stepToken m st [] = some { st with args := st.args ++ [[]] }) := by
  constructor
  · intro k hk
    simp [stepToken, h, hk, startsWithDashDash, startsWithDash]
  · intro hk
    simp [stepToken, h, hk, startsWithDashDash, startsWithDash]

/-- Witness for C10 at a concrete state with pending key `k`. -/
theorem c10_witness :
    (⟨[], [], some (str "k"), false⟩ : St).dashdash = false ∧
    (⟨[], [], some (str "k"), false⟩ : St).key = some (str "k") ∧
    stepToken ArgMap.new ⟨[], [], some (str "k"), false⟩ [] =
      some { (⟨[], [], some (str "k"), false⟩ : St) with
        argv := set [] (str "k") [], key := none } :=
  ⟨rfl, rfl,
    (c10_empty_token ArgMap.new ⟨[], [], some (str "k"), false⟩ rfl).1 (str "k") rfl⟩


lemma one_le_utf8Width (c : Char) : 1 ≤ utf8Width c := by
  unfold utf8Width
  repeat' split
  all_goals omega

lemma byteLen_append (a b : Str) : byteLen (a ++ b) = byteLen a + byteLen b := by
  induction a with
  | nil => simp [byteLen]
  | cons c cs ih => simp [byteLen, ih]; omega

lemma dropB_byteLen_append (l r : Str) : dropB (l ++ r) (byteLen l) = some r := by
  induction l with
  | nil => simp [byteLen, dropB]
  | cons c cs ih =>
    have hw := one_le_utf8Width c
    have h1 : ∃ n, utf8Width c + byteLen cs = n + 1 := ⟨utf8Width c + byteLen cs - 1, by omega⟩
    obtain ⟨n, hn⟩ := h1
    rw [List.cons_append, byteLen, hn, dropB]
    rw [if_pos (by omega)]
    have h2 : n + 1 - utf8Width c = byteLen cs := by omega
    rw [h2, ih]

lemma takeB_byteLen_append (l r : Str) : takeB (l ++ r) (byteLen l) = some l := by
  induction l with
  | nil => simp [byteLen, takeB]
  | cons c cs ih =>
    have hw := one_le_utf8Width c
    have h1 : ∃ n, utf8Width c + byteLen cs = n + 1 := ⟨utf8Width c + byteLen cs - 1, by omega⟩
    obtain ⟨n, hn⟩ := h1
    rw [List.cons_append, byteLen, hn, takeB]
    rw [if_pos (by omega)]
    have h2 : n + 1 - utf8Width c = byteLen cs := by omega
    rw [h2, ih]
    rfl

lemma findEq_append_eq (l r : Str) (hl : ('=' : Char) ∉ l) :
    findEq (l ++ '=' :: r) = some (byteLen l) := by
  induction l with
  | nil => simp [findEq, byteLen]
  | cons c cs ih =>
    have hc : c ≠ '=' := by
      intro hEq
      exact hl (hEq ▸ List.mem_cons_self c cs)
    have hcs : ('=' : Char) ∉ cs := fun hmem => hl (List.mem_cons_of_mem c hmem)
    rw [List.cons_append, findEq, if_neg hc, ih hcs, byteLen]
    simp [Nat.add_comm]

lemma dropB_zero (s : Str) : dropB s 0 = some s := by
  cases s <;> rfl

lemma sliceB_zero (s : Str) (n : Nat) : sliceB s 0 n = takeB s n := by
  simp [sliceB, dropB_zero]

/-- C7: a token of the form `--name=value` (with `=` not occurring in
`name`), processed while the dash-dash flag is unset, always splits at
the first `=`: `name` becomes the key and `value` is appended to its
value sequence (registering the key if new, after flushing any pending
key), the token never becomes a pending key and never registers bare
boolean presence, for every boolean-name configuration. -/
theorem c7_long_equals (m : ArgMap) (st : St) (name value : Str)
    (h : st.dashdash = false) (hn : ('=' : Char) ∉ name) :
    stepToken m st ('-' :: '-' :: (name ++ '=' :: value)) =
      some { st with
        argv := set (match st.key with
          | some k => mapInsert st.argv k []
          | none => st.argv) name value,
        key := none } := by
  have hne2 : ('-' :: '-' :: (name ++ '=' :: value)) ≠ ['-', '-'] := by
    simp
  have hne1 : ('-' :: '-' :: (name ++ '=' :: value)) ≠ ['-'] := by
    simp
  have hdd : startsWithDashDash ('-' :: '-' :: (name ++ '=' :: value)) = true := rfl
  have hdrop2 : dropB ('-' :: '-' :: (name ++ '=' :: value)) 2 =
      some (name ++ '=' :: value) := by
    have h1 : dropB ('-' :: '-' :: (name ++ '=' :: value)) 2 =
        dropB (name ++ '=' :: value) 0 := rfl
    rw [h1, dropB_zero]
  have hfind : findEq (name ++ '=' :: value) = some (byteLen name) :=
    findEq_append_eq name value hn
  have htake : sliceB (name ++ '=' :: value) 0 (byteLen name) = some name := by
    rw [sliceB_zero, takeB_byteLen_append]
  have hdropv : dropB (name ++ '=' :: value) (byteLen name + 1) = some value := by
    have : name ++ '=' :: value = (name ++ ['=']) ++ value := by simp
    rw [this]
    have hlen : byteLen name + 1 = byteLen (name ++ ['=']) := by
      rw [byteLen_append]
      rfl
    rw [hlen, dropB_byteLen_append]
  rw [stepToken, if_neg (by simp [h]), if_neg hne2, if_neg hne1, if_pos hdd]
  rw [hdrop2]
  simp only [hfind, htake, hdropv]

/-- Witness for C7 at the concrete token `--n=v` from the initial
state. -/
theorem c7_witness :
    St.init.dashdash = false ∧ ('=' : Char) ∉ [Char.ofNat 110] ∧
    stepToken ArgMap.new St.init ('-' :: '-' :: ([Char.ofNat 110] ++ '=' :: [Char.ofNat 118])) =
      some { St.init with
        argv := set St.init.argv [Char.ofNat 110] [Char.ofNat 118], key := none } :=
  ⟨rfl, by decide,
    c7_long_equals ArgMap.new St.init [Char.ofNat 110] [Char.ofNat 118] rfl (by decide)⟩

end Argmap
